import Mathlib

/-!
Shallow embedding of the ERC-20 token faucet DApp core:
`contracts/Token.sol` (capped-supply mintable token) and the
`TokenFaucet` contract (rate-limited claim gate calling `Token.mint`).

Modelling conventions:
* Addresses, amounts and timestamps are `Nat`.  Solidity 0.8 uses checked
  arithmetic (overflow/underflow reverts rather than wraps), and every value
  reachable here (claim counters ≤ 1100·10^18, supply ≤ 100000·10^18,
  timestamps) is far below 2^256, so plain `Nat` arithmetic is faithful;
  the one place a checked subtraction could underflow
  (`remainingAllowance`) is modelled explicitly with `Option`.
* Solidity mappings default to zero; they are modelled as association lists
  with a zero-default lookup so that concrete states evaluate by `decide`.
* A reverting call is an `Except`/`Option` error: the EVM rolls back every
  state write of the transaction, so an errored call yields no new state.
  `applyOp` (a transaction) keeps the old state on error.
* Revert reason strings are mapped to the error names the specification
  uses: "Faucet is currently paused" ↦ `FaucetPaused`, "Must wait 24 hours
  between claims" ↦ `CooldownActive`, "Lifetime claim limit reached" ↦
  `LifetimeLimitReached`, "Only minter can mint tokens" / "Only admin can
  pause faucet" ↦ `Unauthorized`, "Cannot mint to zero address" ↦
  `ZeroAddress`, "Exceeds maximum supply" ↦ `SupplyExceeded`.
-/

namespace FaucetDApp

/-- Association-list map from address to `Nat`, zero default (Solidity mapping). -/
abbrev AMap := List (Nat × Nat)

/-- Mapping read: value stored at the first occurrence of the key, else 0. -/
def lookupA : AMap → Nat → Nat
  | [], _ => 0
  | (k, v) :: t, a => if a = k then v else lookupA t a

/-- Mapping write: replace the first occurrence of the key, or append. -/
def setA : AMap → Nat → Nat → AMap
  | [], k, v => [(k, v)]
  | (k', v') :: t, k, v => if k = k' then (k, v) :: t else (k', v') :: setA t k v

/-- Sum of all stored values (sum of all balances of the ledger). -/
def sumA (m : AMap) : Nat := (m.map Prod.snd).sum

/-- Failure kinds of `Token.mint` (`contracts/Token.sol`). -/
inductive TokenErr where
  | Unauthorized
  | ZeroAddress
  | SupplyExceeded
  deriving DecidableEq, Repr

/-- State of the `Token` contract: the designated minter, the ERC-20
balance mapping and the running total supply. -/
structure TokenState where
  minter : Nat
  balances : AMap
  totalSupply : Nat
  deriving DecidableEq, Repr

namespace Token

/-- `uint256 public constant MAX_SUPPLY = 100_000 * 10 ** 18;` -/
def MAX_SUPPLY : Nat := 100000 * 10 ^ 18

/-- `Token.mint(to, amount)` from `contracts/Token.sol`:
requires `msg.sender == minter`, `to != address(0)`,
`totalSupply() + amount <= MAX_SUPPLY`; on success OpenZeppelin `_mint`
adds `amount` to the total supply and to `to`'s balance. -/
def mint (caller : Nat) (t : TokenState) (toA amount : Nat) :
    Except TokenErr TokenState :=
  if caller ≠ t.minter then .error .Unauthorized
  else if toA = 0 then .error .ZeroAddress
  else if t.totalSupply + amount > MAX_SUPPLY then .error .SupplyExceeded
  else .ok { t with
    balances := setA t.balances toA (lookupA t.balances toA + amount),
    totalSupply := t.totalSupply + amount }

end Token

/-- Failure kinds of the faucet operations; `MintFail` is a revert raised
inside the nested `Token.mint` call and propagated (rolling back the whole
claim transaction). -/
inductive FaucetErr where
  | FaucetPaused
  | CooldownActive
  | LifetimeLimitReached
  | Unauthorized
  | MintFail (e : TokenErr)
  deriving DecidableEq, Repr

/-- Audit events of the faucet (`TokensClaimed`, `FaucetPaused`). -/
inductive Ev where
  | TokensClaimed (user amount timestamp : Nat)
  | FaucetPaused (isPaused : Bool)
  deriving DecidableEq, Repr

/-- Combined state of the deployed system: the `TokenFaucet` contract's
fields (`paused`, `admin`, `lastClaimAt`, `totalClaimed`), its own address
(`address(this)`, the caller identity it presents to `Token.mint`), the
`Token` contract state, and the append-only audit event log. -/
structure SysState where
  paused : Bool
  admin : Nat
  faucetAddr : Nat
  lastClaimAt : AMap
  totalClaimed : AMap
  token : TokenState
  events : List Ev
  deriving DecidableEq, Repr

/-- `uint256 public constant FAUCET_AMOUNT = 100 * 10 ** 18;` -/
def FAUCET_AMOUNT : Nat := 100 * 10 ^ 18

/-- `uint256 public constant COOLDOWN_TIME = 24 hours;` (seconds). -/
def COOLDOWN_TIME : Nat := 86400

/-- `uint256 public constant MAX_CLAIM_AMOUNT = 1000 * 10 ** 18;` -/
def MAX_CLAIM_AMOUNT : Nat := 1000 * 10 ^ 18

/-- `TokenFaucet.requestTokens()` called by `caller` at `block.timestamp
= now`: checks (in source order) the pause flag, the cooldown, the
lifetime cap; then updates `lastClaimAt`/`totalClaimed`, calls
`token.mint(msg.sender, FAUCET_AMOUNT)` (a mint revert rolls the whole
transaction back), and emits `TokensClaimed`. -/
def requestTokens (caller now : Nat) (s : SysState) :
    Except FaucetErr SysState :=
  if s.paused then .error .FaucetPaused
  else if now < lookupA s.lastClaimAt caller + COOLDOWN_TIME then
    .error .CooldownActive
  else if lookupA s.totalClaimed caller + FAUCET_AMOUNT > MAX_CLAIM_AMOUNT then
    .error .LifetimeLimitReached
  else
    match Token.mint s.faucetAddr s.token caller FAUCET_AMOUNT with
    | .error e => .error (.MintFail e)
    | .ok t => .ok { s with
        lastClaimAt := setA s.lastClaimAt caller now,
        totalClaimed :=
          setA s.totalClaimed caller
            (lookupA s.totalClaimed caller + FAUCET_AMOUNT),
        token := t,
        events := s.events ++ [Ev.TokensClaimed caller FAUCET_AMOUNT now] }

/-- `TokenFaucet.canClaim(user)` evaluated at `block.timestamp = now`:
false when paused, when in cooldown, or when
`totalClaimed[user] >= MAX_CLAIM_AMOUNT`; true otherwise. -/
def canClaim (s : SysState) (user now : Nat) : Bool :=
  if s.paused then false
  else if now < lookupA s.lastClaimAt user + COOLDOWN_TIME then false
  else if lookupA s.totalClaimed user ≥ MAX_CLAIM_AMOUNT then false
  else true

/-- `TokenFaucet.remainingAllowance(user)`:
`uint256 remaining = MAX_CLAIM_AMOUNT - totalClaimed[user];` is a checked
subtraction (reverts on underflow, modelled as `none`), then
`remaining > 0 ? remaining : 0` is returned. -/
def remainingAllowance (s : SysState) (user : Nat) : Option Nat :=
  if lookupA s.totalClaimed user > MAX_CLAIM_AMOUNT then none
  else
    let remaining := MAX_CLAIM_AMOUNT - lookupA s.totalClaimed user
    some (if remaining > 0 then remaining else 0)

/-- `TokenFaucet.isPaused()`. -/
def isPaused (s : SysState) : Bool := s.paused

/-- `TokenFaucet.setPaused(_paused)` called by `caller`: admin-only,
unconditionally overwrites the flag and emits `FaucetPaused(_paused)`. -/
def setPaused (caller : Nat) (v : Bool) (s : SysState) :
    Except FaucetErr SysState :=
  if caller = s.admin then
    .ok { s with paused := v, events := s.events ++ [Ev.FaucetPaused v] }
  else .error .Unauthorized

/-- A transaction against the system: a `requestTokens` call by some
account at some timestamp, or a `setPaused` call by some account. -/
inductive Op where
  | claim (caller now : Nat)
  | pause (caller : Nat) (v : Bool)
  deriving DecidableEq, Repr

/-- Transaction semantics: a reverted call leaves the state exactly as it
was (EVM rollback); a successful call commits the returned state. -/
def applyOp (s : SysState) : Op → SysState
  | .claim c n =>
    match requestTokens c n s with
    | .ok s' => s'
    | .error _ => s
  | .pause c v =>
    match setPaused c v s with
    | .ok s' => s'
    | .error _ => s

/-- Deployment state (`scripts/deploy.js`): token deployed with the faucet
as minter, faucet holding the token, deployer (address 1) as admin, the
faucet contract at address 2, empty mappings, zero supply, no events. -/
def initState : SysState :=
  { paused := false
    admin := 1
    faucetAddr := 2
    lastClaimAt := []
    totalClaimed := []
    token := { minter := 2, balances := [], totalSupply := 0 }
    events := [] }

/-- States reachable from deployment by any sequence of `requestTokens`
and `setPaused` transactions. -/
inductive Reachable : SysState → Prop where
  | init : Reachable initState
  | step {s : SysState} (o : Op) : Reachable s → Reachable (applyOp s o)

/-- One `Token.mint` transaction in isolation: a reverted mint leaves the
token state unchanged. -/
def mintApply (t : TokenState) (caller toA amount : Nat) : TokenState :=
  match Token.mint caller t toA amount with
  | .ok t' => t'
  | .error _ => t

/-- A freshly deployed token with minter `m`: empty ledger, zero supply. -/
def tInit (m : Nat) : TokenState :=
  { minter := m, balances := [], totalSupply := 0 }

/-- Token states reachable from deployment by any sequence of `mint`
calls (by any caller, to any recipient, of any amount). -/
inductive TReachable (m : Nat) : TokenState → Prop where
  | init : TReachable m (tInit m)
  | step {t : TokenState} (caller toA amount : Nat) :
      TReachable m t → TReachable m (mintApply t caller toA amount)

/-! ### Basic lemmas about the map operations and the contract calls -/

theorem lookupA_setA (m : AMap) (k v a : Nat) :
    lookupA (setA m k v) a = if a = k then v else lookupA m a := by
  induction m with
  | nil => simp [setA, lookupA]
  | cons hd t ih =>
    obtain ⟨k', v'⟩ := hd
    by_cases hk : k = k'
    · subst hk
      simp only [setA, if_pos rfl, lookupA]
      by_cases ha : a = k <;> simp [ha]
    · simp only [setA, if_neg hk, lookupA, ih]
      by_cases ha : a = k'
      · subst ha
        simp [Ne.symm hk]
      · simp [ha]

theorem sumA_setA (m : AMap) (k v : Nat) :
    sumA (setA m k v) + lookupA m k = sumA m + v := by
  induction m with
  | nil => simp [setA, sumA, lookupA]
  | cons hd t ih =>
    obtain ⟨k', v'⟩ := hd
    by_cases hk : k = k'
    · subst hk
      simp [setA, sumA, lookupA]
      omega
    · simp only [setA, if_neg hk, sumA, List.map_cons, List.sum_cons, lookupA,
        if_neg hk] at *
      omega

/-- Constant relation used throughout: the lifetime cap is ten claims. -/
theorem max_claim_eq : MAX_CLAIM_AMOUNT = 10 * FAUCET_AMOUNT := by
  norm_num [MAX_CLAIM_AMOUNT, FAUCET_AMOUNT]

/-- Constant relation: the supply cap is a thousand claims. -/
theorem max_supply_eq : Token.MAX_SUPPLY = 1000 * FAUCET_AMOUNT := by
  norm_num [Token.MAX_SUPPLY, FAUCET_AMOUNT]

theorem faucet_amount_pos : 0 < FAUCET_AMOUNT := by
  norm_num [FAUCET_AMOUNT]

theorem mint_ok_iff {caller toA amount : Nat} {t t' : TokenState} :
    Token.mint caller t toA amount = .ok t' ↔
      caller = t.minter ∧ toA ≠ 0 ∧
      t.totalSupply + amount ≤ Token.MAX_SUPPLY ∧
      t' = { t with
        balances := setA t.balances toA (lookupA t.balances toA + amount),
        totalSupply := t.totalSupply + amount } := by
  unfold Token.mint
  split_ifs with h1 h2 h3
  · simp [h1]
  · simp [h2, not_not.mp h1]
  · constructor
    · intro h
      simp at h
    · rintro ⟨-, -, hle, -⟩
      omega
  · push_neg at h1 h3
    simp [h1, h2, h3, eq_comm]

theorem requestTokens_paused {c n : Nat} {s : SysState} (h : s.paused = true) :
    requestTokens c n s = .error .FaucetPaused := by
  simp [requestTokens, h]

theorem requestTokens_cooldown {c n : Nat} {s : SysState}
    (h1 : s.paused = false)
    (h2 : n < lookupA s.lastClaimAt c + COOLDOWN_TIME) :
    requestTokens c n s = .error .CooldownActive := by
  simp [requestTokens, h1, h2]

theorem requestTokens_limit {c n : Nat} {s : SysState}
    (h1 : s.paused = false)
    (h2 : ¬ n < lookupA s.lastClaimAt c + COOLDOWN_TIME)
    (h3 : lookupA s.totalClaimed c + FAUCET_AMOUNT > MAX_CLAIM_AMOUNT) :
    requestTokens c n s = .error .LifetimeLimitReached := by
  simp [requestTokens, h1, h2, h3]

theorem requestTokens_mintfail {c n : Nat} {s : SysState} {e : TokenErr}
    (h1 : s.paused = false)
    (h2 : ¬ n < lookupA s.lastClaimAt c + COOLDOWN_TIME)
    (h3 : lookupA s.totalClaimed c + FAUCET_AMOUNT ≤ MAX_CLAIM_AMOUNT)
    (h4 : Token.mint s.faucetAddr s.token c FAUCET_AMOUNT = .error e) :
    requestTokens c n s = .error (.MintFail e) := by
  simp [requestTokens, h1, h2, Nat.not_lt.mpr h3, h4]

theorem requestTokens_ok_iff {c n : Nat} {s s' : SysState} :
    requestTokens c n s = .ok s' ↔
      s.paused = false ∧
      lookupA s.lastClaimAt c + COOLDOWN_TIME ≤ n ∧
      lookupA s.totalClaimed c + FAUCET_AMOUNT ≤ MAX_CLAIM_AMOUNT ∧
      ∃ t, Token.mint s.faucetAddr s.token c FAUCET_AMOUNT = .ok t ∧
        s' = { s with
          lastClaimAt := setA s.lastClaimAt c n,
          totalClaimed :=
            setA s.totalClaimed c
              (lookupA s.totalClaimed c + FAUCET_AMOUNT),
          token := t,
          events := s.events ++ [Ev.TokensClaimed c FAUCET_AMOUNT n] } := by
  unfold requestTokens
  split_ifs with h1 h2 h3
  · simp [h1]
  · constructor
    · intro h
      simp at h
    · rintro ⟨-, hle, -⟩
      omega
  · constructor
    · intro h
      simp at h
    · rintro ⟨-, -, hle, -⟩
      omega
  · cases hm : Token.mint s.faucetAddr s.token c FAUCET_AMOUNT with
    | error e =>
      constructor
      · intro h
        simp at h
      · rintro ⟨-, -, -, t, hmt, -⟩
        simp at hmt
    | ok t =>
      simp only [Except.ok.injEq]
      constructor
      · intro h
        exact ⟨by simpa using h1, by omega, by omega, t, rfl, h.symm⟩
      · rintro ⟨-, -, -, t2, ht2, hs'⟩
        cases ht2
        exact hs'.symm

theorem applyOp_claim_error {c n : Nat} {s : SysState} {e : FaucetErr}
    (h : requestTokens c n s = .error e) :
    applyOp s (.claim c n) = s := by
  simp [applyOp, h]

theorem applyOp_claim_ok {c n : Nat} {s s' : SysState}
    (h : requestTokens c n s = .ok s') :
    applyOp s (.claim c n) = s' := by
  simp [applyOp, h]

theorem applyOp_pause_eq {c : Nat} {v : Bool} {s : SysState} :
    applyOp s (.pause c v) =
      if c = s.admin then
        { s with paused := v, events := s.events ++ [Ev.FaucetPaused v] }
      else s := by
  by_cases h : c = s.admin <;> simp [applyOp, setPaused, h]

/-! ### Reachability invariants -/

/-- Invariant of reachable system states: the faucet is the token's
minter, and every account's lifetime counter is a whole number of claims,
at most ten. -/
def Inv (s : SysState) : Prop :=
  s.token.minter = s.faucetAddr ∧
  ∀ a, ∃ k, k ≤ 10 ∧ lookupA s.totalClaimed a = k * FAUCET_AMOUNT

theorem inv_init : Inv initState :=
  ⟨rfl, fun a => ⟨0, by norm_num, by simp [initState, lookupA]⟩⟩

theorem inv_applyOp {s : SysState} (h : Inv s) (o : Op) : Inv (applyOp s o) := by
  obtain ⟨hm, hk⟩ := h
  cases o with
  | pause c v =>
    rw [applyOp_pause_eq]
    split_ifs with hc
    · exact ⟨hm, hk⟩
    · exact ⟨hm, hk⟩
  | claim c n =>
    cases hr : requestTokens c n s with
    | error e =>
      rw [applyOp_claim_error hr]
      exact ⟨hm, hk⟩
    | ok s' =>
      rw [applyOp_claim_ok hr]
      rw [requestTokens_ok_iff] at hr
      obtain ⟨hp, hcd, hlim, t, hmt, hs'⟩ := hr
      subst hs'
      rw [mint_ok_iff] at hmt
      obtain ⟨hcall, hne, hsup, ht⟩ := hmt
      subst ht
      refine ⟨by simpa using hm, fun a => ?_⟩
      simp only [lookupA_setA]
      by_cases ha : a = c
      · obtain ⟨k, hk10, hkeq⟩ := hk c
        refine ⟨k + 1, ?_, ?_⟩
        · rw [hkeq, max_claim_eq] at hlim
          have hF := faucet_amount_pos
          have : (k + 1) * FAUCET_AMOUNT ≤ 10 * FAUCET_AMOUNT := by
            calc (k + 1) * FAUCET_AMOUNT = k * FAUCET_AMOUNT + FAUCET_AMOUNT := by
                  ring
            _ ≤ 10 * FAUCET_AMOUNT := hlim
          exact Nat.le_of_mul_le_mul_right this hF
        · simp only [if_pos ha, hkeq]
          ring
      · simp only [if_neg ha]
        exact hk a

theorem reachable_inv {s : SysState} (h : Reachable s) : Inv s := by
  induction h with
  | init => exact inv_init
  | step o _ ih => exact inv_applyOp ih o

/-- The lifetime counter never exceeds the cap on reachable states. -/
theorem reachable_totalClaimed_le {s : SysState} (h : Reachable s)
    (a : Nat) : lookupA s.totalClaimed a ≤ MAX_CLAIM_AMOUNT := by
  obtain ⟨k, hk10, hkeq⟩ := (reachable_inv h).2 a
  rw [hkeq, max_claim_eq]
  exact Nat.mul_le_mul_right _ hk10

/-- On a counter that is a whole number of claims (at most ten), the
read-only lifetime test and the mutating lifetime test coincide. -/
theorem lifetime_tests_agree {tc k : Nat} (hk : k ≤ 10)
    (heq : tc = k * FAUCET_AMOUNT) :
    tc ≥ MAX_CLAIM_AMOUNT ↔ tc + FAUCET_AMOUNT > MAX_CLAIM_AMOUNT := by
  subst heq
  rw [max_claim_eq]
  have hF := faucet_amount_pos
  constructor
  · intro h
    omega
  · intro h
    have h10 : 10 < k + 1 := by
      have : 10 * FAUCET_AMOUNT < (k + 1) * FAUCET_AMOUNT := by
        calc 10 * FAUCET_AMOUNT < k * FAUCET_AMOUNT + FAUCET_AMOUNT := h
        _ = (k + 1) * FAUCET_AMOUNT := by ring
      exact Nat.lt_of_mul_lt_mul_right this
    have hk10 : k = 10 := by omega
    subst hk10
    omega

/-- Invariant of token states under arbitrary `mint` sequences: the ledger
sum equals the recorded total supply, which respects the supply cap. -/
def TInv (t : TokenState) : Prop :=
  sumA t.balances = t.totalSupply ∧ t.totalSupply ≤ Token.MAX_SUPPLY

theorem tinv_init (m : Nat) : TInv (tInit m) :=
  ⟨by simp [tInit, sumA], by norm_num [tInit, Token.MAX_SUPPLY]⟩

theorem tinv_mintApply {t : TokenState} (h : TInv t)
    (caller toA amount : Nat) : TInv (mintApply t caller toA amount) := by
  obtain ⟨h1, h2⟩ := h
  unfold mintApply
  cases hm : Token.mint caller t toA amount with
  | error e => exact ⟨h1, h2⟩
  | ok t' =>
    rw [mint_ok_iff] at hm
    obtain ⟨hc, hne, hsup, ht'⟩ := hm
    subst ht'
    refine ⟨?_, hsup⟩
    have hs := sumA_setA t.balances toA (lookupA t.balances toA + amount)
    simp only
    omega

theorem treachable_inv {m : Nat} {t : TokenState} (h : TReachable m t) :
    TInv t := by
  induction h with
  | init => exact tinv_init m
  | step caller toA amount _ ih => exact tinv_mintApply ih caller toA amount

/-! ### A trace exhausting the token supply

Accounts 1, 2, ..., n claim once each, account `i` at time
`i · COOLDOWN_TIME`.  After 1000 such claims the token's total supply
equals `MAX_SUPPLY`, so the faucet can no longer mint for anybody. -/

/-- State after the first `n` accounts have each claimed once. -/
def sN : Nat → SysState
  | 0 => initState
  | n + 1 => applyOp (sN n) (.claim (n + 1) ((n + 1) * COOLDOWN_TIME))

theorem sN_reachable (n : Nat) : Reachable (sN n) := by
  induction n with
  | zero => exact .init
  | succ n ih => exact .step _ ih

theorem sN_props (n : Nat) (hn : n ≤ 1000) :
    (sN n).paused = false ∧
    (sN n).faucetAddr = 2 ∧
    (sN n).token.minter = 2 ∧
    (sN n).token.totalSupply = n * FAUCET_AMOUNT ∧
    ∀ a, n < a →
      lookupA (sN n).lastClaimAt a = 0 ∧
      lookupA (sN n).totalClaimed a = 0 := by
  induction n with
  | zero =>
    refine ⟨rfl, rfl, rfl, by simp [sN, initState], ?_⟩
    intro a _
    simp [sN, initState, lookupA]
  | succ n ih =>
    obtain ⟨hp, hf, hm, hts, hfresh⟩ := ih (Nat.le_of_succ_le hn)
    obtain ⟨hl0, hc0⟩ := hfresh (n + 1) (Nat.lt_succ_self n)
    have hF := faucet_amount_pos
    have hmint : Token.mint (sN n).faucetAddr (sN n).token (n + 1)
        FAUCET_AMOUNT = .ok
        { (sN n).token with
          balances := setA (sN n).token.balances (n + 1)
            (lookupA (sN n).token.balances (n + 1) + FAUCET_AMOUNT),
          totalSupply := (sN n).token.totalSupply + FAUCET_AMOUNT } := by
      rw [mint_ok_iff]
      refine ⟨by rw [hm, hf], by omega, ?_, rfl⟩
      rw [hts, max_supply_eq]
      have h1 : (n + 1) * FAUCET_AMOUNT ≤ 1000 * FAUCET_AMOUNT :=
        Nat.mul_le_mul_right _ hn
      calc n * FAUCET_AMOUNT + FAUCET_AMOUNT
          = (n + 1) * FAUCET_AMOUNT := by ring
      _ ≤ 1000 * FAUCET_AMOUNT := h1
    have hok : requestTokens (n + 1) ((n + 1) * COOLDOWN_TIME) (sN n) = .ok
        { (sN n) with
          lastClaimAt :=
            setA (sN n).lastClaimAt (n + 1) ((n + 1) * COOLDOWN_TIME),
          totalClaimed := setA (sN n).totalClaimed (n + 1)
            (lookupA (sN n).totalClaimed (n + 1) + FAUCET_AMOUNT),
          token :=
          { (sN n).token with
            balances := setA (sN n).token.balances (n + 1)
              (lookupA (sN n).token.balances (n + 1) + FAUCET_AMOUNT),
            totalSupply := (sN n).token.totalSupply + FAUCET_AMOUNT },
          events := (sN n).events ++
            [Ev.TokensClaimed (n + 1) FAUCET_AMOUNT
              ((n + 1) * COOLDOWN_TIME)] } := by
      rw [requestTokens_ok_iff]
      refine ⟨hp, ?_, ?_, _, hmint, rfl⟩
      · rw [hl0]
        simpa using Nat.le_mul_of_pos_left COOLDOWN_TIME (Nat.succ_pos n)
      · rw [hc0, max_claim_eq]
        omega
    have hstep : sN (n + 1) =
        applyOp (sN n) (.claim (n + 1) ((n + 1) * COOLDOWN_TIME)) := rfl
    rw [hstep, applyOp_claim_ok hok]
    refine ⟨hp, hf, hm, ?_, ?_⟩
    · show (sN n).token.totalSupply + FAUCET_AMOUNT = (n + 1) * FAUCET_AMOUNT
      rw [hts]
      ring
    · intro a ha
      have hane : a ≠ n + 1 := by omega
      constructor
      · show lookupA (setA (sN n).lastClaimAt (n + 1)
          ((n + 1) * COOLDOWN_TIME)) a = 0
        rw [lookupA_setA, if_neg hane]
        exact (hfresh a (by omega)).1
      · show lookupA (setA (sN n).totalClaimed (n + 1)
          (lookupA (sN n).totalClaimed (n + 1) + FAUCET_AMOUNT)) a = 0
        rw [lookupA_setA, if_neg hane]
        exact (hfresh a (by omega)).2

/-- Equality of call results is decidable, so concrete calls evaluate. -/
instance exceptDecEq {ε α : Type} [DecidableEq ε] [DecidableEq α] :
    DecidableEq (Except ε α) := fun x y =>
  match x, y with
  | .error a, .error b =>
    if h : a = b then .isTrue (by rw [h]) else .isFalse (by simp [h])
  | .error _, .ok _ => .isFalse (by simp)
  | .ok _, .error _ => .isFalse (by simp)
  | .ok a, .ok b =>
    if h : a = b then .isTrue (by rw [h]) else .isFalse (by simp [h])

/-- When the counter is within the cap, the checked subtraction in
`remainingAllowance` cannot underflow and the ternary is the identity. -/
theorem remainingAllowance_eq {s : SysState} {a : Nat}
    (h : lookupA s.totalClaimed a ≤ MAX_CLAIM_AMOUNT) :
    remainingAllowance s a =
      some (MAX_CLAIM_AMOUNT - lookupA s.totalClaimed a) := by
  unfold remainingAllowance
  rw [if_neg (by omega)]
  show some (if MAX_CLAIM_AMOUNT - lookupA s.totalClaimed a > 0
      then MAX_CLAIM_AMOUNT - lookupA s.totalClaimed a else 0) =
    some (MAX_CLAIM_AMOUNT - lookupA s.totalClaimed a)
  split_ifs with hr
  · rfl
  · simp only [Option.some.injEq]
    omega

theorem requestTokens_ne_cooldown {c n : Nat} {s : SysState}
    (h : ¬ n < lookupA s.lastClaimAt c + COOLDOWN_TIME) :
    requestTokens c n s ≠ .error .CooldownActive := by
  unfold requestTokens
  split_ifs with h1 h2
  · simp
  · simp
  · cases hm : Token.mint s.faucetAddr s.token c FAUCET_AMOUNT <;> simp

/-- A system state whose token supply is already exhausted; used to
exercise the mint-failure path of `requestTokens`. -/
def sFull : SysState :=
  { initState with
    token := { minter := 2, balances := [], totalSupply := Token.MAX_SUPPLY } }

/-- The state committed by one admin `setPaused(true)` call. -/
def pausedOnce (s : SysState) : SysState :=
  { s with paused := true, events := s.events ++ [Ev.FaucetPaused true] }

/-- The state committed by two consecutive admin `setPaused(true)` calls. -/
def pausedTwice (s : SysState) : SysState :=
  { s with
    paused := true
    events := (s.events ++ [Ev.FaucetPaused true]) ++ [Ev.FaucetPaused true] }

/-! ### Claims -/

/-- C4: a claim attempt evaluates its gating conditions in the exact
order paused, then cooldown, then lifetime limit, and the first failing
condition determines the reported error: paused fails `FaucetPaused`
regardless of the other conditions; else a current cooldown fails
`CooldownActive` regardless of the lifetime state; else an exceeded
lifetime cap fails `LifetimeLimitReached`. -/
theorem claim_gate_order (s : SysState) (c n : Nat) :
    (s.paused = true → requestTokens c n s = .error .FaucetPaused) ∧
    (s.paused = false → n < lookupA s.lastClaimAt c + COOLDOWN_TIME →
      requestTokens c n s = .error .CooldownActive) ∧
    (s.paused = false → ¬ n < lookupA s.lastClaimAt c + COOLDOWN_TIME →
      lookupA s.totalClaimed c + FAUCET_AMOUNT > MAX_CLAIM_AMOUNT →
      requestTokens c n s = .error .LifetimeLimitReached) :=
  ⟨requestTokens_paused, requestTokens_cooldown, requestTokens_limit⟩

theorem claim_gate_order_witness :
    requestTokens 1 200000 { initState with paused := true } =
      .error .FaucetPaused ∧
    requestTokens 1 0 initState = .error .CooldownActive ∧
    requestTokens 1 90000
      { initState with totalClaimed := [(1, MAX_CLAIM_AMOUNT)] } =
      .error .LifetimeLimitReached :=
  ⟨(claim_gate_order { initState with paused := true } 1 200000).1 rfl,
   (claim_gate_order initState 1 0).2.1 rfl (by decide),
   (claim_gate_order { initState with totalClaimed := [(1, MAX_CLAIM_AMOUNT)] }
      1 90000).2.2 rfl (by decide) (by decide)⟩

/-- C2: if `requestTokens` fails for any reason — including the nested
mint call failing (e.g. `SupplyExceeded`) after the gate's checks all
passed — the committed state is exactly the pre-call state: no counter
update, no balance or supply change, and no `TokensClaimed` event. -/
theorem claim_atomic_rollback (s : SysState) (c n : Nat) :
    ((∃ e, requestTokens c n s = .error e) →
      applyOp s (.claim c n) = s ∧
      (applyOp s (.claim c n)).events = s.events) ∧
    (s.paused = false → ¬ n < lookupA s.lastClaimAt c + COOLDOWN_TIME →
      lookupA s.totalClaimed c + FAUCET_AMOUNT ≤ MAX_CLAIM_AMOUNT →
      ∀ e, Token.mint s.faucetAddr s.token c FAUCET_AMOUNT = .error e →
        requestTokens c n s = .error (.MintFail e) ∧
        applyOp s (.claim c n) = s) := by
  constructor
  · rintro ⟨e, he⟩
    exact ⟨applyOp_claim_error he, by rw [applyOp_claim_error he]⟩
  · intro h1 h2 h3 e h4
    have hmf := requestTokens_mintfail h1 h2 h3 h4
    exact ⟨hmf, applyOp_claim_error hmf⟩

theorem claim_atomic_rollback_witness :
    applyOp initState (.claim 1 0) = initState ∧
    requestTokens 1 86400 sFull = .error (.MintFail .SupplyExceeded) ∧
    applyOp sFull (.claim 1 86400) = sFull :=
  ⟨((claim_atomic_rollback initState 1 0).1 ⟨.CooldownActive, by decide⟩).1,
   ((claim_atomic_rollback sFull 1 86400).2 rfl (by decide) (by decide)
      .SupplyExceeded (by decide)).1,
   ((claim_atomic_rollback sFull 1 86400).2 rfl (by decide) (by decide)
      .SupplyExceeded (by decide)).2⟩

/-- C3: on every reachable state (any sequence of `requestTokens` and
`setPaused` transactions from deployment), every account's lifetime
counter is at most `MAX_CLAIM_AMOUNT`. -/
theorem totalClaimed_le_max {s : SysState} (h : Reachable s) (a : Nat) :
    lookupA s.totalClaimed a ≤ MAX_CLAIM_AMOUNT :=
  reachable_totalClaimed_le h a

theorem totalClaimed_le_max_witness :
    lookupA initState.totalClaimed 7 ≤ MAX_CLAIM_AMOUNT :=
  totalClaimed_le_max Reachable.init 7

/-- C6: `mint` fails `Unauthorized` for a non-minter caller, else
`ZeroAddress` for the null recipient, else `SupplyExceeded` when the cap
would be passed; otherwise it credits the recipient by the amount and
increases the total supply by the same amount — and over any sequence of
mint calls the sum of all balances never exceeds `MAX_SUPPLY`. -/
theorem mint_spec :
    (∀ (t : TokenState) (caller toA amount : Nat),
      (caller ≠ t.minter →
        Token.mint caller t toA amount = .error .Unauthorized) ∧
      (caller = t.minter → toA = 0 →
        Token.mint caller t toA amount = .error .ZeroAddress) ∧
      (caller = t.minter → toA ≠ 0 →
        t.totalSupply + amount > Token.MAX_SUPPLY →
        Token.mint caller t toA amount = .error .SupplyExceeded) ∧
      (caller = t.minter → toA ≠ 0 →
        t.totalSupply + amount ≤ Token.MAX_SUPPLY →
        ∃ t', Token.mint caller t toA amount = .ok t' ∧
          lookupA t'.balances toA = lookupA t.balances toA + amount ∧
          t'.totalSupply = t.totalSupply + amount)) ∧
    (∀ (m : Nat) (t : TokenState), TReachable m t →
      sumA t.balances ≤ Token.MAX_SUPPLY) := by
  constructor
  · intro t caller toA amount
    refine ⟨?_, ?_, ?_, ?_⟩
    · intro h
      simp [Token.mint, h]
    · intro h1 h2
      simp [Token.mint, h1, h2]
    · intro h1 h2 h3
      simp [Token.mint, h1, h2, h3]
    · intro h1 h2 h3
      refine ⟨_, mint_ok_iff.mpr ⟨h1, h2, h3, rfl⟩, ?_, rfl⟩
      rw [lookupA_setA]
      simp
  · intro m t ht
    obtain ⟨h1, h2⟩ := treachable_inv ht
    omega

theorem mint_spec_witness :
    Token.mint 3 (tInit 2) 1 5 = .error .Unauthorized ∧
    Token.mint 2 (tInit 2) 0 5 = .error .ZeroAddress ∧
    Token.mint 2 (tInit 2) 1 (Token.MAX_SUPPLY + 1) =
      .error .SupplyExceeded ∧
    sumA (tInit 2).balances ≤ Token.MAX_SUPPLY :=
  ⟨(mint_spec.1 (tInit 2) 3 1 5).1 (by decide),
   (mint_spec.1 (tInit 2) 2 0 5).2.1 rfl rfl,
   (mint_spec.1 (tInit 2) 2 1 (Token.MAX_SUPPLY + 1)).2.2.1 rfl (by decide)
     (by omega),
   mint_spec.2 2 (tInit 2) TReachable.init⟩

/-- C8: `setPaused(v)` by the stored admin unconditionally overwrites the
flag and emits `FaucetPaused(v)` even when `v` equals the current flag,
so calling it twice with `true` leaves `isPaused` true and emits two
events; a non-admin caller fails `Unauthorized` and the flag is
unchanged. -/
theorem setPaused_spec (s : SysState) (c : Nat) (v : Bool) :
    (c = s.admin → setPaused c v s =
      .ok { s with paused := v,
                   events := s.events ++ [Ev.FaucetPaused v] }) ∧
    (c ≠ s.admin → setPaused c v s = .error .Unauthorized ∧
      applyOp s (.pause c v) = s) ∧
    (c = s.admin → ∃ s1 s2, setPaused c true s = .ok s1 ∧
      setPaused c true s1 = .ok s2 ∧ isPaused s2 = true ∧
      s2.events = s.events ++ [Ev.FaucetPaused true, Ev.FaucetPaused true]) := by
  refine ⟨?_, ?_, ?_⟩
  · intro h
    simp [setPaused, h]
  · intro h
    refine ⟨by simp [setPaused, h], ?_⟩
    rw [applyOp_pause_eq, if_neg h]
  · intro h
    refine ⟨pausedOnce s, pausedTwice s, ?_, ?_, rfl, ?_⟩
    · simp [setPaused, h, pausedOnce]
    · simp [setPaused, h, pausedOnce, pausedTwice]
    · simp [pausedTwice]

theorem setPaused_spec_witness :
    setPaused 1 true initState = .ok (pausedOnce initState) ∧
    setPaused 5 true initState = .error .Unauthorized ∧
    applyOp initState (.pause 5 true) = initState :=
  ⟨(setPaused_spec initState 1 true).1 rfl,
   ((setPaused_spec initState 5 true).2.1 (by decide)).1,
   ((setPaused_spec initState 5 true).2.1 (by decide)).2⟩

/-- C10: on every reachable state, every account's lifetime counter is an
exact whole number of claims — `k · FAUCET_AMOUNT` with `k ≤ 10` — and
consequently the read-only lifetime test (`≥ MAX_CLAIM_AMOUNT`) and the
mutating one (`+ FAUCET_AMOUNT > MAX_CLAIM_AMOUNT`) coincide. -/
theorem totalClaimed_is_claim_multiple {s : SysState} (h : Reachable s)
    (a : Nat) :
    (∃ k, k ≤ 10 ∧ lookupA s.totalClaimed a = k * FAUCET_AMOUNT) ∧
    (lookupA s.totalClaimed a ≥ MAX_CLAIM_AMOUNT ↔
      lookupA s.totalClaimed a + FAUCET_AMOUNT > MAX_CLAIM_AMOUNT) := by
  obtain ⟨k, hk10, hkeq⟩ := (reachable_inv h).2 a
  exact ⟨⟨k, hk10, hkeq⟩, lifetime_tests_agree hk10 hkeq⟩

theorem totalClaimed_is_claim_multiple_witness :
    (∃ k, k ≤ 10 ∧ lookupA initState.totalClaimed 3 = k * FAUCET_AMOUNT) ∧
    (lookupA initState.totalClaimed 3 ≥ MAX_CLAIM_AMOUNT ↔
      lookupA initState.totalClaimed 3 + FAUCET_AMOUNT > MAX_CLAIM_AMOUNT) :=
  totalClaimed_is_claim_multiple Reachable.init 3

/-- C7: on every reachable state, `remainingAllowance(A)` is a pure read
that returns `MAX_CLAIM_AMOUNT - totalClaimed[A]` (never reverting, and —
since `totalClaimed[A] ≤ MAX_CLAIM_AMOUNT` holds on reachable states —
this Nat subtraction equals the spec's `max(0, ...)` integer value); it
returns `MAX_CLAIM_AMOUNT` for a fresh account, decreases by exactly
`FAUCET_AMOUNT` per successful claim, and returns 0 at the cap. -/
theorem remainingAllowance_spec {s : SysState} (h : Reachable s)
    (a : Nat) :
    remainingAllowance s a =
      some (MAX_CLAIM_AMOUNT - lookupA s.totalClaimed a) ∧
    (lookupA s.totalClaimed a = 0 →
      remainingAllowance s a = some MAX_CLAIM_AMOUNT) ∧
    (lookupA s.totalClaimed a = MAX_CLAIM_AMOUNT →
      remainingAllowance s a = some 0) ∧
    (∀ n s', requestTokens a n s = .ok s' →
      ∃ r, remainingAllowance s a = some r ∧ FAUCET_AMOUNT ≤ r ∧
        remainingAllowance s' a = some (r - FAUCET_AMOUNT)) := by
  have htc := reachable_totalClaimed_le h a
  have h1 := remainingAllowance_eq htc
  refine ⟨h1, ?_, ?_, ?_⟩
  · intro h0
    rw [h1, h0, Nat.sub_zero]
  · intro hcap
    rw [h1, hcap, Nat.sub_self]
  · intro n s' hok
    rw [requestTokens_ok_iff] at hok
    obtain ⟨hp, hcd, hlim, t, hmt, hs'⟩ := hok
    refine ⟨MAX_CLAIM_AMOUNT - lookupA s.totalClaimed a, h1, by omega, ?_⟩
    have h2 : lookupA s'.totalClaimed a =
        lookupA s.totalClaimed a + FAUCET_AMOUNT := by
      rw [hs']
      show lookupA (setA s.totalClaimed a
        (lookupA s.totalClaimed a + FAUCET_AMOUNT)) a =
        lookupA s.totalClaimed a + FAUCET_AMOUNT
      rw [lookupA_setA]
      simp
    rw [remainingAllowance_eq (by rw [h2]; omega), h2]
    simp only [Option.some.injEq]
    omega

theorem remainingAllowance_spec_witness :
    remainingAllowance initState 1 =
      some (MAX_CLAIM_AMOUNT - lookupA initState.totalClaimed 1) ∧
    remainingAllowance initState 1 = some MAX_CLAIM_AMOUNT :=
  ⟨(remainingAllowance_spec Reachable.init 1).1,
   (remainingAllowance_spec Reachable.init 1).2.1 (by decide)⟩

/-- C9: `lastClaimAt[A]` starts at zero, is strictly increased by each of
A's successful claims (the cooldown precondition forces the new timestamp
past the old one), and is changed by no other operation (claims by other
accounts, failed claims, pause calls); `totalClaimed[A]` starts at zero
and is monotonically non-decreasing under every operation. -/
theorem claim_record_evolution :
    (∀ a, lookupA initState.lastClaimAt a = 0 ∧
      lookupA initState.totalClaimed a = 0) ∧
    (∀ s c n s', requestTokens c n s = .ok s' →
      lookupA s.lastClaimAt c < lookupA s'.lastClaimAt c ∧
      lookupA s'.lastClaimAt c = n) ∧
    (∀ s c n a, a ≠ c →
      lookupA (applyOp s (.claim c n)).lastClaimAt a =
        lookupA s.lastClaimAt a) ∧
    (∀ s c n e, requestTokens c n s = .error e →
      (applyOp s (.claim c n)).lastClaimAt = s.lastClaimAt) ∧
    (∀ s c v, (applyOp s (.pause c v)).lastClaimAt = s.lastClaimAt) ∧
    (∀ s o a, lookupA s.totalClaimed a ≤
      lookupA (applyOp s o).totalClaimed a) := by
  refine ⟨?_, ?_, ?_, ?_, ?_, ?_⟩
  · intro a
    simp [initState, lookupA]
  · intro s c n s' hok
    rw [requestTokens_ok_iff] at hok
    obtain ⟨hp, hcd, hlim, t, hmt, hs'⟩ := hok
    subst hs'
    have hl : lookupA (setA s.lastClaimAt c n) c = n := by
      rw [lookupA_setA]
      simp
    refine ⟨?_, hl⟩
    show lookupA s.lastClaimAt c < lookupA (setA s.lastClaimAt c n) c
    rw [hl]
    have : 0 < COOLDOWN_TIME := by norm_num [COOLDOWN_TIME]
    omega
  · intro s c n a ha
    cases hr : requestTokens c n s with
    | error e =>
      rw [applyOp_claim_error hr]
    | ok s' =>
      rw [applyOp_claim_ok hr]
      rw [requestTokens_ok_iff] at hr
      obtain ⟨-, -, -, t, -, hs'⟩ := hr
      subst hs'
      show lookupA (setA s.lastClaimAt c n) a = lookupA s.lastClaimAt a
      rw [lookupA_setA, if_neg ha]
  · intro s c n e he
    rw [applyOp_claim_error he]
  · intro s c v
    rw [applyOp_pause_eq]
    split_ifs <;> rfl
  · intro s o a
    cases o with
    | pause c v =>
      rw [applyOp_pause_eq]
      split_ifs <;> exact le_rfl
    | claim c n =>
      cases hr : requestTokens c n s with
      | error e =>
        rw [applyOp_claim_error hr]
      | ok s' =>
        rw [applyOp_claim_ok hr]
        rw [requestTokens_ok_iff] at hr
        obtain ⟨-, -, -, t, -, hs'⟩ := hr
        subst hs'
        show lookupA s.totalClaimed a ≤ lookupA (setA s.totalClaimed c
          (lookupA s.totalClaimed c + FAUCET_AMOUNT)) a
        rw [lookupA_setA]
        split_ifs with hc
        · subst hc
          omega
        · exact le_rfl

theorem claim_record_evolution_witness :
    (lookupA initState.lastClaimAt 4 = 0 ∧
      lookupA initState.totalClaimed 4 = 0) ∧
    lookupA initState.lastClaimAt 1 <
      lookupA (applyOp initState (.claim 1 86400)).lastClaimAt 1 ∧
    lookupA initState.totalClaimed 9 ≤
      lookupA (applyOp initState (.pause 1 true)).totalClaimed 9 :=
  ⟨claim_record_evolution.1 4,
   (claim_record_evolution.2.1 initState 1 86400
      (applyOp initState (.claim 1 86400)) (by decide)).1,
   claim_record_evolution.2.2.2.2.2 initState (.pause 1 true) 9⟩

/-- C5: a successful `requestTokens()` by account `c` at time `T` sets
`lastClaimAt[c] = T`, adds exactly `FAUCET_AMOUNT` to `totalClaimed[c]`
and to `c`'s token balance, appends a `TokensClaimed(c, FAUCET_AMOUNT,
T)` event, and in the committed state any claim attempt by `c` strictly
before `T + COOLDOWN_TIME` fails `CooldownActive` while an attempt at
exactly `T + COOLDOWN_TIME` is no longer blocked by the cooldown. -/
theorem successful_claim_effects (s : SysState) (c T : Nat)
    (s' : SysState) (h : requestTokens c T s = .ok s') :
    lookupA s'.lastClaimAt c = T ∧
    lookupA s'.totalClaimed c =
      lookupA s.totalClaimed c + FAUCET_AMOUNT ∧
    lookupA s'.token.balances c =
      lookupA s.token.balances c + FAUCET_AMOUNT ∧
    s'.events = s.events ++ [Ev.TokensClaimed c FAUCET_AMOUNT T] ∧
    (∀ u, u < T + COOLDOWN_TIME →
      requestTokens c u s' = .error .CooldownActive) ∧
    requestTokens c (T + COOLDOWN_TIME) s' ≠ .error .CooldownActive := by
  rw [requestTokens_ok_iff] at h
  obtain ⟨hp, hcd, hlim, t, hmt, hs'⟩ := h
  subst hs'
  rw [mint_ok_iff] at hmt
  obtain ⟨hcall, hne, hsup, ht⟩ := hmt
  subst ht
  have hlc : lookupA (setA s.lastClaimAt c T) c = T := by
    rw [lookupA_setA]
    simp
  refine ⟨hlc, ?_, ?_, rfl, ?_, ?_⟩
  · show lookupA (setA s.totalClaimed c
      (lookupA s.totalClaimed c + FAUCET_AMOUNT)) c =
      lookupA s.totalClaimed c + FAUCET_AMOUNT
    rw [lookupA_setA]
    simp
  · show lookupA (setA s.token.balances c
      (lookupA s.token.balances c + FAUCET_AMOUNT)) c =
      lookupA s.token.balances c + FAUCET_AMOUNT
    rw [lookupA_setA]
    simp
  · intro u hu
    refine requestTokens_cooldown ?_ ?_
    · exact hp
    · show u < lookupA (setA s.lastClaimAt c T) c + COOLDOWN_TIME
      rw [hlc]
      exact hu
  · apply requestTokens_ne_cooldown
    show ¬ T + COOLDOWN_TIME < lookupA (setA s.lastClaimAt c T) c +
      COOLDOWN_TIME
    rw [hlc]
    omega

theorem successful_claim_effects_witness :
    lookupA (applyOp initState (.claim 1 86400)).lastClaimAt 1 = 86400 ∧
    requestTokens 1 100000 (applyOp initState (.claim 1 86400)) =
      .error .CooldownActive := by
  have h : requestTokens 1 86400 initState =
      .ok (applyOp initState (.claim 1 86400)) := by decide
  exact ⟨(successful_claim_effects initState 1 86400 _ h).1,
    (successful_claim_effects initState 1 86400 _ h).2.2.2.2.1 100000
      (by norm_num [COOLDOWN_TIME])⟩

/-- C1 counterexample: on the reachable state in which accounts 1..1000
have each claimed once (token supply exhausted at `MAX_SUPPLY`), the
fresh account 1001 has `canClaim = true`, yet its `requestTokens()` call
at the very same instant reverts (`SupplyExceeded` raised by the nested
mint), so the read-only predicate and the mutating operation disagree. -/
theorem canClaim_requestTokens_drift :
    Reachable (sN 1000) ∧
    canClaim (sN 1000) 1001 (1001 * COOLDOWN_TIME) = true ∧
    requestTokens 1001 (1001 * COOLDOWN_TIME) (sN 1000) =
      .error (.MintFail .SupplyExceeded) := by
  obtain ⟨hp, hf, hm, hts, hfresh⟩ := sN_props 1000 le_rfl
  obtain ⟨hl0, hc0⟩ := hfresh 1001 (by norm_num)
  have hF := faucet_amount_pos
  refine ⟨sN_reachable 1000, ?_, ?_⟩
  · rw [canClaim, if_neg (by rw [hp]; exact Bool.false_ne_true),
      if_neg (by rw [hl0]; norm_num [COOLDOWN_TIME]),
      if_neg (by rw [hc0, max_claim_eq]; omega)]
  · apply requestTokens_mintfail hp
    · rw [hl0]
      norm_num [COOLDOWN_TIME]
    · rw [hc0, max_claim_eq]
      omega
    · rw [Token.mint, if_neg (by rw [hm, hf]; omega),
        if_neg (by omega), if_pos (by rw [hts, max_supply_eq]; omega)]

/-- C1 amended: `canClaim(A)` agrees with `requestTokens()` except where
the Ledger's supply cap (which `canClaim` does not consult) intervenes:
on every reachable state, for a non-null account, if the token still has
room for one claim (`totalSupply + FAUCET_AMOUNT ≤ MAX_SUPPLY`) then
`canClaim(A)` is true iff a `requestTokens()` call by A at that instant
succeeds; and the read-only lifetime test and the mutating lifetime test
never disagree on a reachable state. -/
theorem canClaim_iff_claim_succeeds {s : SysState} (h : Reachable s)
    (a now : Nat) :
    (a ≠ 0 → s.token.totalSupply + FAUCET_AMOUNT ≤ Token.MAX_SUPPLY →
      (canClaim s a now = true ↔
        ∃ s', requestTokens a now s = .ok s')) ∧
    (lookupA s.totalClaimed a ≥ MAX_CLAIM_AMOUNT ↔
      lookupA s.totalClaimed a + FAUCET_AMOUNT > MAX_CLAIM_AMOUNT) := by
  obtain ⟨hminter, hmult⟩ := reachable_inv h
  obtain ⟨k, hk10, hkeq⟩ := hmult a
  have hagree := lifetime_tests_agree hk10 hkeq
  refine ⟨?_, hagree⟩
  intro ha hsup
  constructor
  · intro hcc
    unfold canClaim at hcc
    split_ifs at hcc with h1 h2 h3
    have hlim : lookupA s.totalClaimed a + FAUCET_AMOUNT ≤
        MAX_CLAIM_AMOUNT := by
      by_contra hgt
      exact h3 (hagree.mpr (by omega))
    refine ⟨_, requestTokens_ok_iff.mpr
      ⟨by simpa using h1, by omega, hlim, _,
        mint_ok_iff.mpr ⟨hminter.symm, ha, hsup, rfl⟩, rfl⟩⟩
  · rintro ⟨s', hs'⟩
    rw [requestTokens_ok_iff] at hs'
    obtain ⟨hp, hcd, hlim, -⟩ := hs'
    have hnc : ¬ now < lookupA s.lastClaimAt a + COOLDOWN_TIME := by
      omega
    have hnl : ¬ lookupA s.totalClaimed a ≥ MAX_CLAIM_AMOUNT := by
      intro hge
      have := hagree.mp hge
      omega
    simp [canClaim, hp, hnc, hnl]

theorem canClaim_iff_claim_succeeds_witness :
    canClaim initState 1 86400 = true ↔
      ∃ s', requestTokens 1 86400 initState = .ok s' :=
  (canClaim_iff_claim_succeeds Reachable.init 1 86400).1 (by decide)
    (by decide)

end FaucetDApp
